import Mathlib

/-!
Shallow embedding of the tiktok-ad-library-analyzer repository
(src/tiktok_adlib_keyword_scraper.py, src/tiktok_adlib_ad_details.py,
src/tiktok_ad_volume_plot.py) together with proofs settling the frozen
claims about its specification.

Modelling conventions:
* Python strings are lists of characters (`PyStr`); the ASCII fragment of
  the string methods used by the sources (`upper`, `replace`, `split`,
  `in`) is modelled directly.
* Python `float` arithmetic is idealised as exact rational arithmetic (ℚ).
* `datetime` values are represented by their proleptic-Gregorian ordinal
  day number (ℤ), the representation `datetime.toordinal` uses; ordering
  and day-stepping of `datetime` coincide with ordering and `+ 1` on the
  ordinals.
* JSON values decoded by `json.load` are modelled by the inductive `JVal`;
  fallible Python operations (subscripting, `.get`, `in`, `float()`,
  `strptime`) return `Except PyErr _`, with one constructor per Python
  exception class that the sources can raise or catch.
* Loops whose iteration count is bounded by the input are written either by
  structural recursion on the consumed input or with an explicit fuel that
  provably suffices.
-/

/-! ### Python string model -/

/-- A Python `str`, modelled as its list of characters. -/
abbrev PyStr := List Char

/-- ASCII digit test (`'0'` .. `'9'`), used by the numeric parsers. -/
def isDig (c : Char) : Bool := 48 ≤ c.toNat && c.toNat ≤ 57

/-- ASCII model of `str.upper` on a single character. -/
def pyCharUpper (c : Char) : Char :=
  if 97 ≤ c.toNat ∧ c.toNat ≤ 122 then Char.ofNat (c.toNat - 32) else c

/-- Model of Python `s.upper()`. -/
def pyUpper (s : PyStr) : PyStr := s.map pyCharUpper

/-- Model of Python `s.replace(c, '')`: delete every occurrence of `c`. -/
def removeAll (c : Char) (s : PyStr) : PyStr := s.filter (fun x => x != c)

/-- Model of Python `s.split(sep)` for a single-character separator. -/
def pySplit (sep : Char) : PyStr → List PyStr
  | [] => [[]]
  | c :: rest =>
    if c = sep then [] :: pySplit sep rest
    else
      match pySplit sep rest with
      | p :: ps => (c :: p) :: ps
      | [] => [[c]]

/-- Value of a (possibly empty) ASCII digit string, most significant first. -/
def digitsVal (s : PyStr) : ℕ := s.foldl (fun a c => a * 10 + (c.toNat - 48)) 0

/-- Model of Python `float(s)` on the decimal numeral forms that occur in
reach strings: a digit string, optionally with one decimal point.  Other
inputs (including the empty string) are a `ValueError`, modelled as `none`. -/
def pyFloat (s : PyStr) : Option ℚ :=
  match pySplit '.' s with
  | [w] => if !w.isEmpty && w.all isDig then some (digitsVal w) else none
  | [w, f] =>
    if !(w ++ f).isEmpty && (w ++ f).all isDig then
      some ((digitsVal w : ℚ) + (digitsVal f : ℚ) / 10 ^ f.length)
    else none
  | _ => none

/-! ### Reach-value parser (tiktok_ad_volume_plot.py, lines 6-31) -/

/-- `parse_single_reach` from tiktok_ad_volume_plot.py: a trailing-magnitude
value such as `10K` or `1M`.  The source tests `'K' in value_str` first, then
`'M'`, and removes every occurrence of the suffix letter before converting;
`none` models the `ValueError` that `float()` raises on bad residue. -/
def parse_single_reach (s : PyStr) : Option ℚ :=
  if 'K' ∈ s then (pyFloat (removeAll 'K' s)).map (fun q => q * 1000)
  else if 'M' ∈ s then (pyFloat (removeAll 'M' s)).map (fun q => q * 1000000)
  else pyFloat s

/-- `parse_reach_value` from tiktok_ad_volume_plot.py: empty input yields 0;
otherwise the string is uppercased, comma separators are removed, and a
hyphenated range is parsed as the midpoint of its two endpoints.  The
second catch-all branch models the (unreachable) `IndexError` of
`parts[1]`; `none` models a raised `ValueError`. -/
def parse_reach_value (s : PyStr) : Option ℚ :=
  if s.isEmpty then some 0
  else
    let t := removeAll ',' (pyUpper s)
    if '-' ∈ t then
      match pySplit '-' t with
      | p0 :: p1 :: _ =>
        match parse_single_reach p0, parse_single_reach p1 with
        | some a, some b => some ((a + b) / 2)
        | _, _ => none
      | _ => none
    else parse_single_reach t

example : parse_reach_value ['9', '4', 'K'] = some ((94 : ℚ) * 1000) := by rfl
example : parse_reach_value ['1', '0', 'K', '-', '1', '0', '0', 'K']
    = some (((10 : ℚ) * 1000 + (100 : ℚ) * 1000) / 2) := by rfl
example : parse_reach_value [] = some 0 := by rfl
example : parse_reach_value ['1', '.', '5', 'M']
    = some (((1 : ℚ) + (5 : ℚ) / 10 ^ 1) * 1000000) := by rfl
example : parse_reach_value ['7'] = some 7 := by rfl
example : parse_reach_value ['1', ',', '2', '0', '0'] = some 1200 := by rfl
example : parse_reach_value ['9', '4', 'K'] = some 94000 := by
  have h : parse_reach_value ['9', '4', 'K'] = some ((94 : ℚ) * 1000) := rfl
  rw [h]; norm_num

/-! ### JSON value model and Python exception semantics -/

/-- A JSON value as decoded by `json.load`. -/
inductive JVal where
  | jnull : JVal
  | jbool : Bool → JVal
  | jnum : ℚ → JVal
  | jstr : PyStr → JVal
  | jlist : List JVal → JVal
  | jdict : List (PyStr × JVal) → JVal

/-- The Python exception classes the sources can raise or catch while
processing decoded JSON. -/
inductive PyErr where
  | keyError : PyErr
  | valueError : PyErr
  | typeError : PyErr
  | attributeError : PyErr
deriving DecidableEq

/-- Python truthiness (`if x:`) of a JSON value. -/
def truthy : JVal → Bool
  | .jnull => false
  | .jbool b => b
  | .jnum q => decide (q ≠ 0)
  | .jstr s => !s.isEmpty
  | .jlist xs => !xs.isEmpty
  | .jdict es => !es.isEmpty

/-- Python `x == k` for a string literal `k`: equality across types is
`False`, never an error. -/
def pyEqStr (v : JVal) (k : PyStr) : Bool :=
  match v with
  | .jstr s => s == k
  | _ => false

/-- Naive substring test, modelling Python `pat in s` on strings. -/
def strHasSub (s pat : PyStr) : Bool :=
  (List.range (s.length + 1)).any (fun i => (s.drop i).take pat.length == pat)

/-- Python `k in v` for a string `k`: key membership on dicts, substring on
strings, element equality on lists; `TypeError` on the remaining types. -/
def pyContains (v : JVal) (k : PyStr) : Except PyErr Bool :=
  match v with
  | .jdict es => .ok (es.any (fun e => e.1 == k))
  | .jstr s => .ok (strHasSub s k)
  | .jlist xs => .ok (xs.any (fun x => pyEqStr x k))
  | _ => .error .typeError

/-- Python `v[k]` for a string key `k`: dict lookup (`KeyError` when the key
is absent); on strings, lists and scalars a string index is a `TypeError`. -/
def pySubscript (v : JVal) (k : PyStr) : Except PyErr JVal :=
  match v with
  | .jdict es =>
    match es.find? (fun e => e.1 == k) with
    | some e => .ok e.2
    | none => .error .keyError
  | _ => .error .typeError

/-- Python `v.get(k, dflt)`: only dicts have `.get`; on any other value the
attribute access raises `AttributeError`. -/
def pyGet (v : JVal) (k : PyStr) (dflt : JVal) : Except PyErr JVal :=
  match v with
  | .jdict es =>
    match es.find? (fun e => e.1 == k) with
    | some e => .ok e.2
    | none => .ok dflt
  | _ => .error .attributeError

/-! ### Date parsing (tiktok_ad_volume_plot.py, lines 33-35) -/

/-- Leap-year test of the proleptic Gregorian calendar. -/
def isLeap (y : ℕ) : Bool := y % 4 == 0 && (y % 100 != 0 || y % 400 == 0)

/-- Length of month `m` (1-12) of year `y`. -/
def monthLen (y m : ℕ) : ℕ :=
  if m = 2 then (if isLeap y then 29 else 28)
  else if m = 4 ∨ m = 6 ∨ m = 9 ∨ m = 11 then 30
  else 31

/-- Days in the months before month `m` (1-12) of year `y`. -/
def daysBeforeMonth (y m : ℕ) : ℕ :=
  (List.range (m - 1)).foldl (fun a i => a + monthLen y (i + 1)) 0

/-- `datetime.toordinal` of the civil date `y-m-d`: day number counted from
the epoch, the representation in which `timedelta(days=1)` is `+ 1`. -/
def toOrdinal (y m d : ℕ) : ℤ :=
  365 * ((y : ℤ) - 1) + ((y : ℤ) - 1) / 4 - ((y : ℤ) - 1) / 100
    + ((y : ℤ) - 1) / 400 + daysBeforeMonth y m + d

/-- `parse_date` from tiktok_ad_volume_plot.py:
`datetime.strptime(date_str, t)` for the 8-digit `YYYYMMDD` format, returning
the ordinal day number; `none` models the `ValueError` raised on a malformed
date string. -/
def parse_date (s : PyStr) : Option ℤ :=
  if s.length = 8 ∧ s.all isDig then
    let y := digitsVal (s.take 4)
    let m := digitsVal ((s.drop 4).take 2)
    let d := digitsVal (s.drop 6)
    if 1 ≤ y ∧ 1 ≤ m ∧ m ≤ 12 ∧ 1 ≤ d ∧ d ≤ monthLen y m then
      some (toOrdinal y m d)
    else none
  else none

/-- `parse_date` applied to a JSON field: a non-string argument to
`strptime` is a `TypeError`, a malformed string a `ValueError`. -/
def parse_date_v (v : JVal) : Except PyErr ℤ :=
  match v with
  | .jstr s =>
    match parse_date s with
    | some d => .ok d
    | none => .error .valueError
  | _ => .error .typeError

example : parse_date ['2', '0', '2', '4', '0', '1', '0', '2']
    = (parse_date ['2', '0', '2', '4', '0', '1', '0', '1']).map (fun d => d + 1) := by decide
example : parse_date ['2', '0', '2', '4', '0', '2', '3', '0'] = none := by decide

/-! ### Record loader (tiktok_ad_volume_plot.py, lines 37-94) -/

/-- Key string `data`. -/
def kData : PyStr := ['d', 'a', 't', 'a']

/-- Key string `ad`. -/
def kAd : PyStr := ['a', 'd']

/-- Key string `advertiser`. -/
def kAdvertiser : PyStr := ['a', 'd', 'v', 'e', 'r', 't', 'i', 's', 'e', 'r']

/-- Key string `error`. -/
def kError : PyStr := ['e', 'r', 'r', 'o', 'r']

/-- Key string `code`. -/
def kCode : PyStr := ['c', 'o', 'd', 'e']

/-- String literal `ok`. -/
def kOk : PyStr := ['o', 'k']

/-- Key string `id`. -/
def kId : PyStr := ['i', 'd']

/-- Key string `first_shown_date`. -/
def kFirst : PyStr :=
  ['f', 'i', 'r', 's', 't', '_', 's', 'h', 'o', 'w', 'n', '_', 'd', 'a', 't', 'e']

/-- Key string `last_shown_date`. -/
def kLast : PyStr :=
  ['l', 'a', 's', 't', '_', 's', 'h', 'o', 'w', 'n', '_', 'd', 'a', 't', 'e']

/-- Key string `reach`. -/
def kReach : PyStr := ['r', 'e', 'a', 'c', 'h']

/-- Key string `unique_users_seen`. -/
def kSeen : PyStr :=
  ['u', 'n', 'i', 'q', 'u', 'e', '_', 'u', 's', 'e', 'r', 's', '_', 's', 'e', 'e', 'n']

/-- Key string `unique_users_seen_by_country`. -/
def kSeenByCountry : PyStr :=
  ['u', 'n', 'i', 'q', 'u', 'e', '_', 'u', 's', 'e', 'r', 's', '_', 's', 'e', 'e', 'n',
   '_', 'b', 'y', '_', 'c', 'o', 'u', 'n', 't', 'r', 'y']

/-- Key string `business_name`. -/
def kBusinessName : PyStr :=
  ['b', 'u', 's', 'i', 'n', 'e', 's', 's', '_', 'n', 'a', 'm', 'e']

/-- String literal `Unknown`. -/
def kUnknown : PyStr := ['U', 'n', 'k', 'n', 'o', 'w', 'n']

/-- A processed ad record as built by `load_and_process_ad_data`:
the dictionary appended to `ads_data` at lines 83-89. -/
structure AdRecord where
  ad_id : JVal
  first_shown : ℤ
  last_shown : ℤ
  reach_volume : ℚ
  advertiser : JVal

/-- `parse_reach_value` applied to a JSON field, as the loader does.  A falsy
argument (`None`, `0`, empty containers, the empty string) returns 0 by the
`if not reach_str` guard; a truthy non-string has no `.upper` attribute. -/
def parse_reach_value_v (v : JVal) : Except PyErr ℚ :=
  if truthy v then
    match v with
    | .jstr s =>
      match parse_reach_value s with
      | some q => .ok q
      | none => .error .valueError
    | _ => .error .attributeError
  else .ok 0

/-- `sum(parse_reach_value(v) for v in country_reach.values())`, lines 78:
Python `sum` starts from 0 and adds left to right. -/
def sumReachValues (acc : ℚ) : List (PyStr × JVal) → Except PyErr ℚ
  | [] => .ok acc
  | e :: es =>
    match parse_reach_value_v e.2 with
    | .error err => .error err
    | .ok q => sumReachValues (acc + q) es

/-- `.values()` is only available on a dict. -/
def totalCountryReach (v : JVal) : Except PyErr ℚ :=
  match v with
  | .jdict es => sumReachValues 0 es
  | _ => .error .attributeError

/-- Lines 58-63 of tiktok_ad_volume_plot.py: select `ad_info` and
`advertiser_info` from the detail-fetch shape (nested under `data`) or the
search-result shape. -/
def adInfoAdvOf (item : JVal) : Except PyErr (JVal × JVal) :=
  match pyContains item kData with
  | .error e => .error e
  | .ok true =>
    match pySubscript item kData with
    | .error e => .error e
    | .ok d =>
      match pySubscript d kAd with
      | .error e => .error e
      | .ok a =>
        match pyGet d kAdvertiser (.jdict []) with
        | .error e => .error e
        | .ok adv => .ok (a, adv)
  | .ok false =>
    match pyGet item kAd item with
    | .error e => .error e
    | .ok a =>
      match pyGet item kAdvertiser (.jdict []) with
      | .error e => .error e
      | .ok adv => .ok (a, adv)

/-- Line 66: `'error' in item and item['error']['code'] != 'ok'`.  Returns
`true` when the entry must be skipped.  Note that when `item['error']` is
not a dict (for instance the string written by `fetch_ad_details` on a
failed fetch) the `['code']` subscript raises a `TypeError`. -/
def errSkip (item : JVal) : Except PyErr Bool :=
  match pyContains item kError with
  | .error e => .error e
  | .ok false => .ok false
  | .ok true =>
    match pySubscript item kError with
    | .error e => .error e
    | .ok ev =>
      match pySubscript ev kCode with
      | .error e => .error e
      | .ok code => .ok (!pyEqStr code kOk)

/-- The body of the `try` block of `load_and_process_ad_data` for one entry:
`.ok none` is a `continue`, `.ok (some r)` appends `r` to `ads_data`, and
`.error e` is a raised exception, handled (or not) by `processItem`. -/
def processItemBody (item : JVal) : Except PyErr (Option AdRecord) :=
  match adInfoAdvOf item with
  | .error e => .error e
  | .ok (ad_info, advertiser_info) =>
    match errSkip item with
    | .error e => .error e
    | .ok true => .ok none
    | .ok false =>
      match pyContains ad_info kId with
      | .error e => .error e
      | .ok false => .ok none
      | .ok true =>
        match pyContains ad_info kFirst with
        | .error e => .error e
        | .ok false => .ok none
        | .ok true =>
          match pySubscript ad_info kId with
          | .error e => .error e
          | .ok ad_id =>
            match pySubscript ad_info kFirst with
            | .error e => .error e
            | .ok fsv =>
              match parse_date_v fsv with
              | .error e => .error e
              | .ok first_shown =>
                match pySubscript ad_info kLast with
                | .error e => .error e
                | .ok lsv =>
                  match parse_date_v lsv with
                  | .error e => .error e
                  | .ok last_shown =>
                    match pyGet ad_info kReach (.jdict []) with
                    | .error e => .error e
                    | .ok reach_info =>
                      match pyGet reach_info kSeen (.jstr ['0']) with
                      | .error e => .error e
                      | .ok gv =>
                        match parse_reach_value_v gv with
                        | .error e => .error e
                        | .ok global_reach =>
                          match pyGet reach_info kSeenByCountry (.jdict []) with
                          | .error e => .error e
                          | .ok country_reach =>
                            match totalCountryReach country_reach with
                            | .error e => .error e
                            | .ok country_total =>
                              match pyGet advertiser_info kBusinessName (.jstr kUnknown) with
                              | .error e => .error e
                              | .ok advertiser_name =>
                                .ok (some
                                  { ad_id := ad_id
                                    first_shown := first_shown
                                    last_shown := last_shown
                                    reach_volume := max global_reach country_total
                                    advertiser := advertiser_name })

/-- One iteration of the loader's `for` loop: `except (KeyError, ValueError)`
turns those two exceptions into a `continue`; any other exception
propagates and aborts the whole call. -/
def processItem (item : JVal) : Except PyErr (Option AdRecord) :=
  match processItemBody item with
  | .ok r => .ok r
  | .error .keyError => .ok none
  | .error .valueError => .ok none
  | .error e => .error e

/-- `load_and_process_ad_data` over the decoded JSON list (a single decoded
dict is wrapped into a one-element list by lines 53-54 before this loop). -/
def load_and_process_ad_data : List JVal → Except PyErr (List AdRecord)
  | [] => .ok []
  | item :: rest =>
    match processItem item with
    | .error e => .error e
    | .ok r =>
      match load_and_process_ad_data rest with
      | .error e => .error e
      | .ok rs =>
        match r with
        | some a => .ok (a :: rs)
        | none => .ok rs

/-! Extraction helpers used to state claims about the loader; each replays
the exact prefix of `processItemBody` that computes the named quantity. -/

/-- The parsed global `unique_users_seen` figure of an entry. -/
def adGlobalReach (item : JVal) : Except PyErr ℚ :=
  match adInfoAdvOf item with
  | .error e => .error e
  | .ok (ad_info, _) =>
    match pyGet ad_info kReach (.jdict []) with
    | .error e => .error e
    | .ok reach_info =>
      match pyGet reach_info kSeen (.jstr ['0']) with
      | .error e => .error e
      | .ok gv => parse_reach_value_v gv

/-- The sum of the parsed per-country `unique_users_seen_by_country`
figures of an entry. -/
def adCountrySum (item : JVal) : Except PyErr ℚ :=
  match adInfoAdvOf item with
  | .error e => .error e
  | .ok (ad_info, _) =>
    match pyGet ad_info kReach (.jdict []) with
    | .error e => .error e
    | .ok reach_info =>
      match pyGet reach_info kSeenByCountry (.jdict []) with
      | .error e => .error e
      | .ok country_reach => totalCountryReach country_reach

/-- The parsed `first_shown_date` of an entry. -/
def adFirstDate (item : JVal) : Except PyErr ℤ :=
  match adInfoAdvOf item with
  | .error e => .error e
  | .ok (ad_info, _) =>
    match pySubscript ad_info kFirst with
    | .error e => .error e
    | .ok fsv => parse_date_v fsv

/-- The parsed `last_shown_date` of an entry. -/
def adLastDate (item : JVal) : Except PyErr ℤ :=
  match adInfoAdvOf item with
  | .error e => .error e
  | .ok (ad_info, _) =>
    match pySubscript ad_info kLast with
    | .error e => .error e
    | .ok lsv => parse_date_v lsv

/-- Forget which exception an `Except` carries. -/
def okOf {α : Type} (x : Except PyErr α) : Option α :=
  match x with
  | .ok a => some a
  | .error _ => none

/-- The reach volume of the record an entry produces, when it produces one. -/
def recordReachOf (x : Except PyErr (Option AdRecord)) : Option ℚ :=
  match x with
  | .ok (some r) => some r.reach_volume
  | _ => none

/-- The date pair of the record an entry produces, when it produces one. -/
def recordDatesOf (x : Except PyErr (Option AdRecord)) : Option (ℤ × ℤ) :=
  match x with
  | .ok (some r) => some (r.first_shown, r.last_shown)
  | _ => none

/-- Number of records a loader call emits; `none` when it raises. -/
def recordCount (x : Except PyErr (List AdRecord)) : Option ℕ :=
  match x with
  | .ok rs => some rs.length
  | .error _ => none

/-- Whether a loader call aborts with an uncaught `TypeError`. -/
def raisesTypeError (x : Except PyErr (List AdRecord)) : Bool :=
  match x with
  | .error .typeError => true
  | _ => false

/-- Whether some emitted record has `last_shown` strictly before
`first_shown`. -/
def someRecordInverted (x : Except PyErr (List AdRecord)) : Bool :=
  match x with
  | .ok rs => rs.any (fun r => decide (r.last_shown < r.first_shown))
  | .error _ => false

/-! ### Daily expansion (tiktok_ad_volume_plot.py, lines 96-117) -/

/-- One row of the daily DataFrame built by `create_date_range_data`. -/
structure DailyRow where
  date : ℤ
  ad_id : JVal
  reach_volume : ℚ
  advertiser : JVal

/-- The `while current_date <= ad['last_shown']` loop for one ad, written
with a fuel that counts the remaining iterations; `expandAd` supplies fuel
equal to the inclusive day span, which suffices exactly. -/
def expandGo (r : AdRecord) : ℕ → ℤ → List DailyRow
  | 0, _ => []
  | fuel + 1, cur =>
    if cur ≤ r.last_shown then
      { date := cur, ad_id := r.ad_id, reach_volume := r.reach_volume,
        advertiser := r.advertiser } :: expandGo r fuel (cur + 1)
    else []

/-- Daily rows of one ad: every calendar day from `first_shown` while
`current_date <= last_shown`. -/
def expandAd (r : AdRecord) : List DailyRow :=
  expandGo r (r.last_shown + 1 - r.first_shown).toNat r.first_shown

/-- `create_date_range_data`: the rows of all ads, in input order. -/
def create_date_range_data (ads : List AdRecord) : List DailyRow :=
  ads.flatMap expandAd

/-! ### Collector (tiktok_adlib_keyword_scraper.py) -/

/-- `MAX_ADS_PER_REQUEST` (line 35). -/
def MAX_ADS_PER_REQUEST : ℕ := 20

/-- `DATE_INCREMENT_DAYS` (line 36). -/
def DATE_INCREMENT_DAYS : ℕ := 10

/-- `MAX_PAGES` (line 37). -/
def MAX_PAGES : ℕ := 1000

/-- `MAX_TOTAL_ADS` (line 38). -/
def MAX_TOTAL_ADS : ℕ := 10000

/-- A value a Python `set` can hold: the hashable `JVal` cases.  Adding an
unhashable value (list or dict) to a set raises `TypeError`. -/
inductive HKey where
  | hnull : HKey
  | hbool : Bool → HKey
  | hnum : ℚ → HKey
  | hstr : PyStr → HKey
deriving DecidableEq

/-- The hashable projection of a JSON value. -/
def toHKey : JVal → Option HKey
  | .jnull => some .hnull
  | .jbool b => some (.hbool b)
  | .jnum q => some (.hnum q)
  | .jstr s => some (.hstr s)
  | _ => none

/-- One element of `all_ads`: the dict `{"id": ad_id, "basic_info": ad}`
appended at lines 141-144. -/
structure RawAd where
  id : JVal
  basic_info : JVal

/-- The collector's per-term accumulation state: `all_ads` and `seen_ids`
(lines 89-90).  The Python set is modelled as the list of its elements in
insertion order; only membership and insertion are ever used. -/
structure CollectSt where
  all_ads : List RawAd
  seen_ids : List HKey

/-- Lines 137-144: process one ad of a page.  `ad.get("ad", {}).get("id")`
extracts the identifier; a falsy identifier is ignored, an unseen one is
recorded.  Set operations on an unhashable identifier raise `TypeError`;
`.get` on a non-dict raises `AttributeError`; neither is caught by the
`except requests.RequestException` handler. -/
def processAd (st : CollectSt) (ad : JVal) : Except PyErr CollectSt :=
  match pyGet ad kAd (.jdict []) with
  | .error e => .error e
  | .ok a =>
    match pyGet a kId .jnull with
    | .error e => .error e
    | .ok idv =>
      if truthy idv then
        match toHKey idv with
        | none => .error .typeError
        | some k =>
          if k ∈ st.seen_ids then .ok st
          else .ok { all_ads := st.all_ads ++ [{ id := idv, basic_info := ad }],
                     seen_ids := st.seen_ids ++ [k] }
      else .ok st

/-- The `for ad in ads` loop over one page. -/
def processAds (st : CollectSt) : List JVal → Except PyErr CollectSt
  | [] => .ok st
  | ad :: ads =>
    match processAd st ad with
    | .error e => .error e
    | .ok st' => processAds st' ads

/-- The accumulation a whole collection run performs over the sequence of
pages its requests return, across all date chunks: the same `all_ads` and
`seen_ids` persist for the entire run of `collect_ad_ids`. -/
def processPages (st : CollectSt) : List (List JVal) → Except PyErr CollectSt
  | [] => .ok st
  | p :: ps =>
    match processAds st p with
    | .error e => .error e
    | .ok st' => processPages st' ps

/-- A response to one search request, as the pagination loop sees it:
an HTTP 429, a successful page carrying `ads`, an optional next `offset`
and the `has_more` flag, or a `requests.RequestException`. -/
inductive Resp where
  | r429 : Resp
  | page : List JVal → Option ℕ → Bool → Resp
  | reqFail : Resp

/-- The inner pagination loop of one date chunk (lines 104-153), driven by
the scripted list of responses its successive requests receive.  Returns
the offsets of the requests it issued, paired with the final accumulation
state.  Each iteration issues one request and consumes one response:
`page_count` is incremented before the request, so a 429 retry also
consumes page budget; on a 429 the offset is left unchanged (`continue`);
a `RequestException` breaks out of the chunk's pagination. -/
def chunkLoop : List Resp → CollectSt → ℕ → ℕ → Bool →
    Except PyErr (List ℕ × CollectSt)
  | [], st, _, _, _ => .ok ([], st)
  | r :: rest, st, offset, page_count, has_more =>
    if has_more ∧ page_count < MAX_PAGES ∧ st.all_ads.length < MAX_TOTAL_ADS then
      match r with
      | .r429 =>
        match chunkLoop rest st offset (page_count + 1) has_more with
        | .error e => .error e
        | .ok (t, res) => .ok (offset :: t, res)
      | .reqFail => .ok ([offset], st)
      | .page ads noff hm =>
        match processAds st ads with
        | .error e => .error e
        | .ok st' =>
          match chunkLoop rest st' (noff.getD (offset + MAX_ADS_PER_REQUEST))
              (page_count + 1) hm with
          | .error e => .error e
          | .ok (t, res) => .ok (offset :: t, res)
    else .ok ([], st)

/-! ### Date chunking (tiktok_adlib_keyword_scraper.py, lines 85-96, 155) -/

/-- The `while current_date < max_date_dt` loop of `collect_ad_ids`,
emitting the date filter `(chunk_start, chunk_end)` of each chunk's search
requests; dates are ordinal day numbers.  Fuel bounds the iteration count;
`chunkList` supplies fuel that suffices whenever the increment is
positive (`DATE_INCREMENT_DAYS` is 10 in the source). -/
def chunkGo (inc : ℕ) : ℕ → ℤ → ℤ → List (ℤ × ℤ)
  | 0, _, _ => []
  | fuel + 1, cur, maxD =>
    if cur < maxD then
      (cur, min (cur + inc - 1) maxD) :: chunkGo inc fuel (cur + inc) maxD
    else []

/-- The date filters of all chunks of one run, for window start `s` and
window end `e` (the code's `start_date_dt` and `max_date_dt`, i.e.
yesterday; `e - s` is the lookback duration in days). -/
def chunkList (inc : ℕ) (s e : ℤ) : List (ℤ × ℤ) :=
  chunkGo inc (e - s).toNat s e

/-- Day `d` lies inside the date filter of at least one chunk. -/
def coveredBy (cs : List (ℤ × ℤ)) (d : ℤ) : Prop :=
  ∃ c ∈ cs, c.1 ≤ d ∧ d ≤ c.2

instance (cs : List (ℤ × ℤ)) (d : ℤ) : Decidable (coveredBy cs d) :=
  inferInstanceAs (Decidable (∃ c ∈ cs, c.1 ≤ d ∧ d ≤ c.2))

example : chunkList 10 0 30 = [(0, 9), (10, 19), (20, 29)] := by decide
example : ¬ coveredBy (chunkList 10 0 30) 30 := by decide
example : chunkList 10 0 35 = [(0, 9), (10, 19), (20, 29), (30, 35)] := by decide

/-! ### Concrete payloads used in counterexamples and witnesses -/

/-- The date string `20240101`. -/
def d0101 : PyStr := ['2', '0', '2', '4', '0', '1', '0', '1']

/-- The date string `20240102`. -/
def d0102 : PyStr := ['2', '0', '2', '4', '0', '1', '0', '2']

/-- The date string `20240103`. -/
def d0103 : PyStr := ['2', '0', '2', '4', '0', '1', '0', '3']

/-- A well-formed search-shape entry: id `A1`, shown 2024-01-01 through
2024-01-03, global reach `10K`, advertiser `Acme`. -/
def itemGood : JVal :=
  .jdict
    [(kAd, .jdict
        [(kId, .jstr ['A', '1']),
         (kFirst, .jstr d0101),
         (kLast, .jstr d0103),
         (kReach, .jdict [(kSeen, .jstr ['1', '0', 'K'])])]),
     (kAdvertiser, .jdict [(kBusinessName, .jstr ['A', 'c', 'm', 'e'])])]

/-- An entry whose `first_shown_date` is after its `last_shown_date`. -/
def itemInverted : JVal :=
  .jdict
    [(kAd, .jdict
        [(kId, .jstr ['A', '2']),
         (kFirst, .jstr d0102),
         (kLast, .jstr d0101)])]

/-- An entry with a global figure of `50K` and per-country figures summing
to 120,000 (`100K` + `20K`). -/
def itemReachMax : JVal :=
  .jdict
    [(kAd, .jdict
        [(kId, .jstr ['A', '3']),
         (kFirst, .jstr d0101),
         (kLast, .jstr d0101),
         (kReach, .jdict
            [(kSeen, .jstr ['5', '0', 'K']),
             (kSeenByCountry, .jdict
                [(['N', 'L'], .jstr ['1', '0', '0', 'K']),
                 (['B', 'E'], .jstr ['2', '0', 'K'])])])])]

/-- An entry with an id and a first-shown date but no `last_shown_date`. -/
def itemNoLast : JVal :=
  .jdict
    [(kAd, .jdict
        [(kId, .jstr ['A', '4']),
         (kFirst, .jstr d0101)])]

/-- An entry with an id and a first-shown date, no `last_shown_date`, and a
string-valued `error` field of the kind `fetch_ad_details` persists. -/
def itemNoLastStrError : JVal :=
  .jdict
    [(kAd, .jdict
        [(kId, .jstr ['A', '5']),
         (kFirst, .jstr d0101)]),
     (kError, .jstr ['b', 'o', 'o', 'm'])]

/-- A persisted detail-fetch failure entry, exactly the shape written by
`fetch_ad_details` at line 74: a dict with `ad_id` and a string `error`. -/
def itemStrError : JVal :=
  .jdict
    [([ 'a', 'd', '_', 'i', 'd'], .jstr ['1', '2', '3']),
     (kError, .jstr ['H', 'T', 'T', 'P', ' ', '5', '0', '0'])]

/-- An entry with a dict-valued non-ok `error` status. -/
def itemDictError : JVal :=
  .jdict
    [(kError, .jdict [(kCode, .jstr ['i', 'n', 't', 'e', 'r', 'n', 'a', 'l'])])]

/-- A well-formed detail-fetch entry: the nested shape with an ok status. -/
def itemDetailOk : JVal :=
  .jdict
    [(kData, .jdict
        [(kAd, .jdict
            [(kId, .jstr ['B', '1']),
             (kFirst, .jstr d0101),
             (kLast, .jstr d0102)]),
         (kAdvertiser, .jdict [(kBusinessName, .jstr ['A', 'c', 'm', 'e'])])]),
     (kError, .jdict [(kCode, .jstr kOk)])]

/-- A record spanning the three days 0, 1, 2. -/
def adRecThreeDays : AdRecord :=
  { ad_id := .jnull, first_shown := 0, last_shown := 2, reach_volume := 5,
    advertiser := .jnull }

/-- A record with an inverted date range. -/
def adRecInverted : AdRecord :=
  { ad_id := .jnull, first_shown := 5, last_shown := 3, reach_volume := 1,
    advertiser := .jnull }

example : recordCount (load_and_process_ad_data [itemGood]) = some 1 := by decide
example : recordCount (load_and_process_ad_data [itemDetailOk]) = some 1 := by decide
example : recordCount (load_and_process_ad_data [itemNoLast, itemGood]) = some 1 := by decide
example : recordCount (load_and_process_ad_data [itemDictError, itemGood]) = some 1 := by decide
example : raisesTypeError (load_and_process_ad_data [itemStrError, itemGood]) = true := by decide
example : raisesTypeError (load_and_process_ad_data [itemNoLastStrError, itemGood]) = true := by
  decide
example : someRecordInverted (load_and_process_ad_data [itemInverted]) = true := by decide
example : okOf (adGlobalReach itemReachMax) = some ((50 : ℚ) * 1000) := by rfl
example : okOf (adCountrySum itemReachMax)
    = some (0 + (100 : ℚ) * 1000 + (20 : ℚ) * 1000) := by rfl
example : recordReachOf (processItem itemReachMax)
    = some (max ((50 : ℚ) * 1000) (0 + (100 : ℚ) * 1000 + (20 : ℚ) * 1000)) := by rfl

/-! ### Collector deduplication vocabulary -/

/-- The identifier key one page ad contributes to the seen-set, when its
extraction succeeds, is truthy and is hashable; `none` when the ad
contributes nothing.  (When extraction raises, the whole run raises and
the run-level hypotheses of the dedup theorems exclude the case.) -/
def adKey (ad : JVal) : Option HKey :=
  match pyGet ad kAd (.jdict []) with
  | .error _ => none
  | .ok a =>
    match pyGet a kId .jnull with
    | .error _ => none
    | .ok idv => if truthy idv then toHKey idv else none

/-- The stream of identifier keys one page offers, in order. -/
def pageKeys (ads : List JVal) : List HKey := ads.filterMap adKey

/-- The stream of identifier keys a whole run offers, in order. -/
def runKeys : List (List JVal) → List HKey
  | [] => []
  | p :: ps => pageKeys p ++ runKeys ps

/-- First-occurrence deduplication of a key stream relative to an initial
seen-set: each key is kept at the position of its first discovery and
dropped on every later occurrence. -/
def dedupNew (seen : List HKey) : List HKey → List HKey
  | [] => []
  | k :: ks => if k ∈ seen then dedupNew seen ks else k :: dedupNew (seen ++ [k]) ks

/-- A page ad whose nested id is the string `X`. -/
def adX : JVal := .jdict [(kAd, .jdict [(kId, .jstr ['X'])])]

/-- A page ad whose nested id is the string `Y`. -/
def adY : JVal := .jdict [(kAd, .jdict [(kId, .jstr ['Y'])])]

/-- Two overlapping pages that both return the identifier `X`. -/
def pagesXY : List (List JVal) := [[adX], [adX, adY]]

/-- The state after collecting `adX` alone. -/
def stAfterX : CollectSt :=
  { all_ads := [{ id := .jstr ['X'], basic_info := adX }],
    seen_ids := [.hstr ['X']] }

/-- The state after running `pagesXY`: `X` appears exactly once. -/
def stAfterXY : CollectSt :=
  { all_ads := [{ id := .jstr ['X'], basic_info := adX },
                { id := .jstr ['Y'], basic_info := adY }],
    seen_ids := [.hstr ['X'], .hstr ['Y']] }

example : processPages { all_ads := [], seen_ids := [] } pagesXY = .ok stAfterXY := rfl
example : runKeys pagesXY = [.hstr ['X'], .hstr ['X'], .hstr ['Y']] := rfl
example : dedupNew [] (runKeys pagesXY) = [.hstr ['X'], .hstr ['Y']] := rfl

/-! ### Lemmas about the string model -/

theorem pyCharUpper_eq_self (c : Char) (h : c.toNat < 97) : pyCharUpper c = c := by
  have h' : ¬ (97 ≤ c.toNat ∧ c.toNat ≤ 122) := by omega
  simp [pyCharUpper, h']

theorem isDig_toNat (c : Char) (h : isDig c = true) : 48 ≤ c.toNat ∧ c.toNat ≤ 57 := by
  simpa [isDig, Bool.and_eq_true, decide_eq_true_eq] using h

/-- Characters of a decimal numeral (digits and the point) are unaffected
by `upper`. -/
theorem numeral_toNat_lt (c : Char) (h : isDig c = true ∨ c = '.') : c.toNat < 97 := by
  rcases h with h | h
  · have := isDig_toNat c h
    omega
  · subst h
    decide

theorem pyUpper_eq_self (s : PyStr) (h : ∀ c ∈ s, c.toNat < 97) : pyUpper s = s := by
  induction s with
  | nil => rfl
  | cons c cs ih =>
    have hc := h c (by simp)
    have ihs := ih (fun x hx => h x (by simp [hx]))
    simp only [pyUpper, List.map_cons] at ihs ⊢
    rw [pyCharUpper_eq_self c hc]
    simp [ihs]

theorem removeAll_eq_self (c : Char) (s : PyStr) (h : ∀ x ∈ s, x ≠ c) :
    removeAll c s = s := by
  unfold removeAll
  rw [List.filter_eq_self]
  intro a ha
  simpa [bne_iff_ne] using h a ha

theorem pySplit_of_not_mem (sep : Char) (s : PyStr) (h : sep ∉ s) :
    pySplit sep s = [s] := by
  induction s with
  | nil => rfl
  | cons c cs ih =>
    have hc : ¬ (c = sep) := by
      rintro rfl
      exact h (by simp)
    have h' : sep ∉ cs := fun hm => h (by simp [hm])
    simp [pySplit, hc, ih h']

theorem pySplit_append (sep : Char) (a b : PyStr) (h : sep ∉ a) :
    pySplit sep (a ++ sep :: b) = a :: pySplit sep b := by
  induction a with
  | nil => simp [pySplit]
  | cons c cs ih =>
    have hc : ¬ (c = sep) := by
      rintro rfl
      exact h (by simp)
    have h' : sep ∉ cs := fun hm => h (by simp [hm])
    simp [pySplit, hc, ih h']

/-- Numeral strings contain none of the special characters of the reach
format. -/
theorem numeral_not_mem (s : PyStr) (hn : ∀ c ∈ s, isDig c = true ∨ c = '.')
    (x : Char) (hx : 57 < x.toNat ∨ x.toNat < 46 ∨ x.toNat = 47) : x ∉ s := by
  intro hm
  rcases hn x hm with h | h
  · have := isDig_toNat x h
    omega
  · subst h
    revert hx
    decide

/-- A numeral string is unchanged by uppercasing and comma removal. -/
theorem numeral_normalized (s : PyStr) (hn : ∀ c ∈ s, isDig c = true ∨ c = '.') :
    removeAll ',' (pyUpper s) = s := by
  rw [pyUpper_eq_self s (fun c hc => numeral_toNat_lt c (hn c hc))]
  refine removeAll_eq_self ',' s (fun x hx h => ?_)
  subst h
  rcases hn ',' hx with h | h
  · have := isDig_toNat _ h
    revert this
    decide
  · revert h
    decide

theorem parse_single_numeral (s : PyStr) (q : ℚ)
    (hn : ∀ c ∈ s, isDig c = true ∨ c = '.') (hq : pyFloat s = some q) :
    parse_single_reach s = some q := by
  have hK : 'K' ∉ s := numeral_not_mem s hn 'K' (by decide)
  have hM : 'M' ∉ s := numeral_not_mem s hn 'M' (by decide)
  simp [parse_single_reach, hK, hM, hq]

/-! ### C2: the reach-string parser reference definition -/

/-- Empty input yields 0; so does a missing (`None`) value by the
`if not reach_str` guard. -/
theorem parse_reach_empty :
    parse_reach_value [] = some 0 ∧ parse_reach_value_v .jnull = .ok 0 := by
  constructor <;> rfl

/-- A numeral followed by `K` parses to 1000 times the numeral. -/
theorem parse_reach_K (s : PyStr) (q : ℚ)
    (hn : ∀ c ∈ s, isDig c = true ∨ c = '.') (hq : pyFloat s = some q) :
    parse_reach_value (s ++ ['K']) = some (q * 1000) := by
  have hup : pyUpper (s ++ ['K']) = s ++ ['K'] := by
    refine pyUpper_eq_self _ (fun c hc => ?_)
    rcases List.mem_append.mp hc with h | h
    · exact numeral_toNat_lt c (hn c h)
    · simp only [List.mem_singleton] at h
      subst h
      decide
  have hcm : removeAll ',' (s ++ ['K']) = s ++ ['K'] := by
    refine removeAll_eq_self _ _ (fun x hx h => ?_)
    subst h
    rcases List.mem_append.mp hx with h | h
    · exact absurd h (numeral_not_mem s hn ',' (by decide))
    · revert h
      decide
  have hdash : '-' ∉ s ++ ['K'] := by
    intro hm
    rcases List.mem_append.mp hm with h | h
    · exact absurd h (numeral_not_mem s hn '-' (by decide))
    · revert h
      decide
  have hKmem : 'K' ∈ s ++ ['K'] := List.mem_append_right _ (by simp)
  have hrem : removeAll 'K' (s ++ ['K']) = s := by
    unfold removeAll
    rw [List.filter_append]
    have h1 : List.filter (fun x => x != 'K') s = s := by
      rw [List.filter_eq_self]
      intro a ha
      simp [bne_iff_ne]
      exact fun h => absurd (h ▸ ha) (numeral_not_mem s hn 'K' (by decide))
    rw [h1]
    simp
  have hne : (s ++ ['K']).isEmpty = false := by simp
  simp only [parse_reach_value, hne, Bool.false_eq_true, if_false, hup, hcm]
  rw [if_neg (by simpa using hdash)]
  simp [parse_single_reach, hKmem, hrem, hq]

/-- A numeral followed by `M` parses to 1000000 times the numeral. -/
theorem parse_reach_M (s : PyStr) (q : ℚ)
    (hn : ∀ c ∈ s, isDig c = true ∨ c = '.') (hq : pyFloat s = some q) :
    parse_reach_value (s ++ ['M']) = some (q * 1000000) := by
  have hup : pyUpper (s ++ ['M']) = s ++ ['M'] := by
    refine pyUpper_eq_self _ (fun c hc => ?_)
    rcases List.mem_append.mp hc with h | h
    · exact numeral_toNat_lt c (hn c h)
    · simp only [List.mem_singleton] at h
      subst h
      decide
  have hcm : removeAll ',' (s ++ ['M']) = s ++ ['M'] := by
    refine removeAll_eq_self _ _ (fun x hx h => ?_)
    subst h
    rcases List.mem_append.mp hx with h | h
    · exact absurd h (numeral_not_mem s hn ',' (by decide))
    · revert h
      decide
  have hdash : '-' ∉ s ++ ['M'] := by
    intro hm
    rcases List.mem_append.mp hm with h | h
    · exact absurd h (numeral_not_mem s hn '-' (by decide))
    · revert h
      decide
  have hKmem : 'K' ∉ s ++ ['M'] := by
    intro hm
    rcases List.mem_append.mp hm with h | h
    · exact absurd h (numeral_not_mem s hn 'K' (by decide))
    · revert h
      decide
  have hMmem : 'M' ∈ s ++ ['M'] := List.mem_append_right _ (by simp)
  have hrem : removeAll 'M' (s ++ ['M']) = s := by
    unfold removeAll
    rw [List.filter_append]
    have h1 : List.filter (fun x => x != 'M') s = s := by
      rw [List.filter_eq_self]
      intro a ha
      simp [bne_iff_ne]
      exact fun h => absurd (h ▸ ha) (numeral_not_mem s hn 'M' (by decide))
    rw [h1]
    simp
  have hne : (s ++ ['M']).isEmpty = false := by simp
  simp only [parse_reach_value, hne, Bool.false_eq_true, if_false, hup, hcm]
  rw [if_neg (by simpa using hdash)]
  simp [parse_single_reach, hKmem, hMmem, hrem, hq]

/-- An unsuffixed numeral parses to its literal value. -/
theorem parse_reach_plain (s : PyStr) (q : ℚ)
    (hn : ∀ c ∈ s, isDig c = true ∨ c = '.') (hq : pyFloat s = some q) :
    parse_reach_value s = some q := by
  have hne : s.isEmpty = false := by
    cases s with
    | nil => simp [pyFloat, pySplit] at hq
    | cons c cs => rfl
  have hdash : '-' ∉ s := numeral_not_mem s hn '-' (by decide)
  simp only [parse_reach_value, hne, Bool.false_eq_true, if_false,
    numeral_normalized s hn]
  rw [if_neg hdash]
  exact parse_single_numeral s q hn hq

/-- A hyphenated string parses to the midpoint of its two independently
parsed endpoints (endpoints given in normalized form). -/
theorem parse_reach_range (a b : PyStr) (qa qb : ℚ)
    (ha : '-' ∉ a) (hb : '-' ∉ b)
    (hna : removeAll ',' (pyUpper a) = a) (hnb : removeAll ',' (pyUpper b) = b)
    (hqa : parse_single_reach a = some qa) (hqb : parse_single_reach b = some qb) :
    parse_reach_value (a ++ '-' :: b) = some ((qa + qb) / 2) := by
  have hne : (a ++ '-' :: b).isEmpty = false := by
    cases a <;> rfl
  have ht : removeAll ',' (pyUpper (a ++ '-' :: b)) = a ++ '-' :: b := by
    unfold pyUpper removeAll at hna hnb ⊢
    rw [List.map_append, List.map_cons, List.filter_append]
    have hd : pyCharUpper '-' = '-' := by decide
    rw [hd, hna]
    have : List.filter (fun x => x != ',') ('-' :: List.map pyCharUpper b)
        = '-' :: List.filter (fun x => x != ',') (List.map pyCharUpper b) := by
      rw [List.filter_cons_of_pos (by decide)]
    rw [this, hnb]
  have hdash : '-' ∈ a ++ '-' :: b := List.mem_append_right _ (by simp)
  simp only [parse_reach_value, hne, Bool.false_eq_true, if_false, ht]
  rw [if_pos hdash, pySplit_append '-' a b ha, pySplit_of_not_mem '-' b hb]
  simp [hqa, hqb]

/-- C2.  Reach-string parser reference definition: the empty or missing
string maps to 0; a numeral with a `K` suffix to 1000 times the numeral,
with an `M` suffix to 1000000 times it; an unsuffixed numeral to its
literal value; and a hyphenated string to the arithmetic mean of its two
independently parsed endpoints, after case normalization and removal of
comma separators. -/
theorem c2_parse_reach_reference :
    (parse_reach_value [] = some 0 ∧ parse_reach_value_v .jnull = .ok 0)
    ∧ (∀ (s : PyStr) (q : ℚ), (∀ c ∈ s, isDig c = true ∨ c = '.') →
        pyFloat s = some q → parse_reach_value (s ++ ['K']) = some (q * 1000))
    ∧ (∀ (s : PyStr) (q : ℚ), (∀ c ∈ s, isDig c = true ∨ c = '.') →
        pyFloat s = some q → parse_reach_value (s ++ ['M']) = some (q * 1000000))
    ∧ (∀ (s : PyStr) (q : ℚ), (∀ c ∈ s, isDig c = true ∨ c = '.') →
        pyFloat s = some q → parse_reach_value s = some q)
    ∧ (∀ (a b : PyStr) (qa qb : ℚ), '-' ∉ a → '-' ∉ b →
        removeAll ',' (pyUpper a) = a → removeAll ',' (pyUpper b) = b →
        parse_single_reach a = some qa → parse_single_reach b = some qb →
        parse_reach_value (a ++ '-' :: b) = some ((qa + qb) / 2)) :=
  ⟨parse_reach_empty, parse_reach_K, parse_reach_M, parse_reach_plain,
    parse_reach_range⟩

/-- Success of `processItemBody` determines the record's fields: the dates
are the parsed date fields of the entry, copied verbatim, and the reach
volume is the maximum of the parsed global figure and the per-country sum. -/
theorem processItemBody_fields (item : JVal) (rec : AdRecord)
    (hb : processItemBody item = .ok (some rec)) :
    (∃ g tc, adGlobalReach item = .ok g ∧ adCountrySum item = .ok tc
      ∧ rec.reach_volume = max g tc)
    ∧ adFirstDate item = .ok rec.first_shown
    ∧ adLastDate item = .ok rec.last_shown := by
  unfold processItemBody at hb
  cases hA : adInfoAdvOf item with
  | error e => simp [hA] at hb
  | ok p =>
    obtain ⟨ad_info, advertiser_info⟩ := p
    simp only [hA] at hb
    cases hE : errSkip item with
    | error e => simp [hE] at hb
    | ok b =>
      cases b with
      | true => simp [hE] at hb
      | false =>
        simp only [hE] at hb
        cases hCI : pyContains ad_info kId with
        | error e => simp [hCI] at hb
        | ok b =>
          cases b with
          | false => simp [hCI] at hb
          | true =>
            simp only [hCI] at hb
            cases hCF : pyContains ad_info kFirst with
            | error e => simp [hCF] at hb
            | ok b =>
              cases b with
              | false => simp [hCF] at hb
              | true =>
                simp only [hCF] at hb
                cases hSI : pySubscript ad_info kId with
                | error e => simp [hSI] at hb
                | ok ad_id =>
                  simp only [hSI] at hb
                  cases hSF : pySubscript ad_info kFirst with
                  | error e => simp [hSF] at hb
                  | ok fsv =>
                    simp only [hSF] at hb
                    cases hPF : parse_date_v fsv with
                    | error e => simp [hPF] at hb
                    | ok first_shown =>
                      simp only [hPF] at hb
                      cases hSL : pySubscript ad_info kLast with
                      | error e => simp [hSL] at hb
                      | ok lsv =>
                        simp only [hSL] at hb
                        cases hPL : parse_date_v lsv with
                        | error e => simp [hPL] at hb
                        | ok last_shown =>
                          simp only [hPL] at hb
                          cases hR : pyGet ad_info kReach (.jdict []) with
                          | error e => simp [hR] at hb
                          | ok reach_info =>
                            simp only [hR] at hb
                            cases hG : pyGet reach_info kSeen (.jstr ['0']) with
                            | error e => simp [hG] at hb
                            | ok gv =>
                              simp only [hG] at hb
                              cases hPG : parse_reach_value_v gv with
                              | error e => simp [hPG] at hb
                              | ok global_reach =>
                                simp only [hPG] at hb
                                cases hC : pyGet reach_info kSeenByCountry (.jdict []) with
                                | error e => simp [hC] at hb
                                | ok country_reach =>
                                  simp only [hC] at hb
                                  cases hTC : totalCountryReach country_reach with
                                  | error e => simp [hTC] at hb
                                  | ok country_total =>
                                    simp only [hTC] at hb
                                    cases hBN : pyGet advertiser_info kBusinessName
                                        (.jstr kUnknown) with
                                    | error e => simp [hBN] at hb
                                    | ok advertiser_name =>
                                      simp only [hBN, Except.ok.injEq,
                                        Option.some.injEq] at hb
                                      subst hb
                                      refine ⟨⟨global_reach, country_total, ?_, ?_, rfl⟩, ?_, ?_⟩
                                      · simp [adGlobalReach, hA, hR, hG, hPG]
                                      · simp [adCountrySum, hA, hR, hC, hTC]
                                      · simp [adFirstDate, hA, hSF, hPF]
                                      · simp [adLastDate, hA, hSL, hPL]

/-- Every record a loader call emits comes from processing one input item. -/
theorem load_mem (items : List JVal) (recs : List AdRecord)
    (h : load_and_process_ad_data items = .ok recs) :
    ∀ rec ∈ recs, ∃ item ∈ items, processItem item = .ok (some rec) := by
  induction items generalizing recs with
  | nil =>
    simp only [load_and_process_ad_data, Except.ok.injEq] at h
    subst h
    simp
  | cons item rest ih =>
    unfold load_and_process_ad_data at h
    cases hi : processItem item with
    | error e => simp [hi] at h
    | ok r =>
      simp only [hi] at h
      cases hr : load_and_process_ad_data rest with
      | error e => simp [hr] at h
      | ok rs =>
        simp only [hr] at h
        cases r with
        | some a =>
          simp only [Except.ok.injEq] at h
          subst h
          intro rec hrec
          rcases List.mem_cons.mp hrec with hrec | hrec
          · exact ⟨item, by simp, hrec ▸ hi⟩
          · obtain ⟨it, hit, hpi⟩ := ih rs hr rec hrec
            exact ⟨it, by simp [hit], hpi⟩
        | none =>
          simp only [Except.ok.injEq] at h
          subst h
          intro rec hrec
          obtain ⟨it, hit, hpi⟩ := ih _ hr rec hrec
          exact ⟨it, by simp [hit], hpi⟩

/-! ### C3: reach-volume selection -/

/-- C3.  Reach-volume selection: whenever an entry yields a record, the
record's reach volume is the maximum of the parsed global figure and the
per-country sum (first conjunct); every record a loader call emits comes
from such an entry (second conjunct); and on the concrete entry with a
global figure of 50,000 and per-country figures summing to 120,000 the
emitted reach volume is 120,000 (third conjunct). -/
theorem c3_reach_volume_max :
    (∀ (item : JVal) (g tc q : ℚ), adGlobalReach item = .ok g →
      adCountrySum item = .ok tc →
      recordReachOf (processItem item) = some q → q = max g tc)
    ∧ (∀ (items : List JVal) (recs : List AdRecord),
        load_and_process_ad_data items = .ok recs →
        ∀ rec ∈ recs, ∃ item ∈ items, processItem item = .ok (some rec))
    ∧ recordReachOf (processItem itemReachMax) = some 120000 := by
  refine ⟨?_, load_mem, ?_⟩
  · intro item g tc q hg htc hq
    unfold processItem at hq
    cases hb : processItemBody item with
    | error e => cases e <;> simp [hb, recordReachOf] at hq
    | ok r =>
      simp only [hb] at hq
      cases r with
      | none => simp [recordReachOf] at hq
      | some rec =>
        simp only [recordReachOf, Option.some.injEq] at hq
        obtain ⟨⟨g', tc', hg', htc', hrv⟩, -, -⟩ := processItemBody_fields item rec hb
        rw [hg'] at hg
        rw [htc'] at htc
        simp only [Except.ok.injEq] at hg htc
        subst hg
        subst htc
        subst hq
        exact hrv
  · have h : recordReachOf (processItem itemReachMax)
        = some (max ((50 : ℚ) * 1000) (0 + (100 : ℚ) * 1000 + (20 : ℚ) * 1000)) := rfl
    rw [h]
    norm_num

/-- Witness for C3: the first conjunct applied to the concrete entry with
global `50K` and per-country figures `100K` and `20K`. -/
theorem c3_witness :
    ∃ q : ℚ, recordReachOf (processItem itemReachMax) = some q
      ∧ q = max ((50 : ℚ) * 1000) (0 + (100 : ℚ) * 1000 + (20 : ℚ) * 1000) :=
  ⟨max ((50 : ℚ) * 1000) (0 + (100 : ℚ) * 1000 + (20 : ℚ) * 1000), rfl,
    c3_reach_volume_max.1 itemReachMax ((50 : ℚ) * 1000)
      (0 + (100 : ℚ) * 1000 + (20 : ℚ) * 1000) _ rfl rfl rfl⟩

/-! ### C7: the first-shown less-or-equal last-shown invariant -/

/-- C7 counterexample: a batch whose single entry has `first_shown_date`
2024-01-02 and `last_shown_date` 2024-01-01 is loaded without complaint and
produces a record with `last_shown < first_shown`. -/
theorem c7_counterexample :
    someRecordInverted (load_and_process_ad_data [itemInverted]) = true := by decide

/-- C7 amended: the loader copies the two parsed date fields into the
record verbatim and performs no ordering check, so an emitted record
satisfies `first_shown ≤ last_shown` exactly when the entry's parsed
`first_shown_date` is at most its parsed `last_shown_date`. -/
theorem c7_amended_dates_not_enforced (item : JVal) (d1 d2 : ℤ) (p : ℤ × ℤ)
    (h1 : adFirstDate item = .ok d1) (h2 : adLastDate item = .ok d2)
    (hp : recordDatesOf (processItem item) = some p) :
    p = (d1, d2) ∧ (p.1 ≤ p.2 ↔ d1 ≤ d2) := by
  unfold processItem at hp
  cases hb : processItemBody item with
  | error e => cases e <;> simp [hb, recordDatesOf] at hp
  | ok r =>
    simp only [hb] at hp
    cases r with
    | none => simp [recordDatesOf] at hp
    | some rec =>
      simp only [recordDatesOf, Option.some.injEq] at hp
      obtain ⟨-, hf, hl⟩ := processItemBody_fields item rec hb
      rw [hf] at h1
      rw [hl] at h2
      simp only [Except.ok.injEq] at h1 h2
      subst h1
      subst h2
      subst hp
      exact ⟨rfl, Iff.rfl⟩

/-- Witness for C7 (amended) on the well-formed entry shown
2024-01-01 through 2024-01-03. -/
theorem c7_witness :
    recordDatesOf (processItem itemGood) = some (toOrdinal 2024 1 1, toOrdinal 2024 1 3)
    ∧ (toOrdinal 2024 1 1, toOrdinal 2024 1 3) = (toOrdinal 2024 1 1, toOrdinal 2024 1 3) :=
  ⟨by decide,
    (c7_amended_dates_not_enforced itemGood (toOrdinal 2024 1 1) (toOrdinal 2024 1 3)
      (toOrdinal 2024 1 1, toOrdinal 2024 1 3) (by rfl) (by rfl) (by decide)).1⟩

/-- Witness for C2 at concrete inputs `10K`, `2M`, `7`, `10K-100K`. -/
theorem c2_witness :
    parse_reach_value ['1', '0', 'K'] = some ((10 : ℚ) * 1000)
    ∧ parse_reach_value ['2', 'M'] = some ((2 : ℚ) * 1000000)
    ∧ parse_reach_value ['7'] = some 7
    ∧ parse_reach_value ['1', '0', 'K', '-', '1', '0', '0', 'K']
        = some (((10 : ℚ) * 1000 + (100 : ℚ) * 1000) / 2) :=
  ⟨c2_parse_reach_reference.2.1 ['1', '0'] 10 (by decide) rfl,
   c2_parse_reach_reference.2.2.1 ['2'] 2 (by decide) rfl,
   c2_parse_reach_reference.2.2.2.1 ['7'] 7 (by decide) rfl,
   c2_parse_reach_reference.2.2.2.2 ['1', '0', 'K'] ['1', '0', '0', 'K']
     ((10 : ℚ) * 1000) ((100 : ℚ) * 1000) (by decide) (by decide) (by decide)
     (by decide) rfl rfl⟩

/-! ### C4 and C10: daily expansion -/

/-- The expansion loop enumerates `fuel` consecutive days starting at `cur`
whenever `fuel` equals the number of remaining loop iterations. -/
theorem expandGo_eq (r : AdRecord) :
    ∀ (n : ℕ) (cur : ℤ), (r.last_shown + 1 - cur).toNat = n →
    expandGo r n cur = (List.range n).map (fun i =>
      { date := cur + (i : ℤ), ad_id := r.ad_id, reach_volume := r.reach_volume,
        advertiser := r.advertiser }) := by
  intro n
  induction n with
  | zero => intro cur _; simp [expandGo]
  | succ k ih =>
    intro cur h
    have hcur : cur ≤ r.last_shown := by omega
    rw [List.range_succ_eq_map]
    simp only [expandGo, if_pos hcur, List.map_cons, List.map_map]
    refine congrArg₂ List.cons (by simp) ?_
    rw [ih (cur + 1) (by omega)]
    refine List.map_congr_left (fun i _ => ?_)
    simp only [Function.comp_apply]
    congr 1
    push_cast
    ring

/-- The rows of one ad are one row per day of `first_shown .. last_shown`. -/
theorem expandAd_eq (r : AdRecord) :
    expandAd r = (List.range (r.last_shown + 1 - r.first_shown).toNat).map (fun i =>
      { date := r.first_shown + (i : ℤ), ad_id := r.ad_id,
        reach_volume := r.reach_volume, advertiser := r.advertiser }) :=
  expandGo_eq r _ r.first_shown rfl

/-- `create_date_range_data` distributes over list concatenation. -/
theorem create_date_range_data_append (xs ys : List AdRecord) :
    create_date_range_data (xs ++ ys)
      = create_date_range_data xs ++ create_date_range_data ys := by
  simp [create_date_range_data]

/-- C4.  Daily expansion row count: a record spanning `D` inclusive days
produces exactly `D` rows, one per calendar day of the interval, each
carrying the record's reach volume, advertiser and id; within
`create_date_range_data` these rows appear contiguously in place of the
record. -/
theorem c4_daily_expansion (r : AdRecord) (h : r.first_shown ≤ r.last_shown) :
    (expandAd r).length = (r.last_shown - r.first_shown + 1).toNat
    ∧ expandAd r = (List.range (r.last_shown - r.first_shown + 1).toNat).map (fun i =>
        { date := r.first_shown + (i : ℤ), ad_id := r.ad_id,
          reach_volume := r.reach_volume, advertiser := r.advertiser })
    ∧ (∀ row ∈ expandAd r, row.reach_volume = r.reach_volume
        ∧ row.advertiser = r.advertiser ∧ row.ad_id = r.ad_id)
    ∧ (∀ d : ℤ, (∃ row ∈ expandAd r, row.date = d)
        ↔ r.first_shown ≤ d ∧ d ≤ r.last_shown)
    ∧ (∀ xs ys : List AdRecord, create_date_range_data (xs ++ r :: ys)
        = create_date_range_data xs ++ expandAd r ++ create_date_range_data ys) := by
  have hD : (r.last_shown + 1 - r.first_shown).toNat
      = (r.last_shown - r.first_shown + 1).toNat := by omega
  have he := expandAd_eq r
  rw [hD] at he
  refine ⟨by rw [he]; simp, he, ?_, ?_, ?_⟩
  · intro row hrow
    rw [he] at hrow
    obtain ⟨i, -, hi⟩ := List.mem_map.mp hrow
    rw [← hi]
    exact ⟨rfl, rfl, rfl⟩
  · intro d
    constructor
    · rintro ⟨row, hrow, hd⟩
      rw [he] at hrow
      obtain ⟨i, hir, hi⟩ := List.mem_map.mp hrow
      rw [List.mem_range] at hir
      rw [← hi] at hd
      simp only at hd
      omega
    · rintro ⟨h1, h2⟩
      refine ⟨⟨d, r.ad_id, r.reach_volume, r.advertiser⟩, ?_, rfl⟩
      rw [he]
      refine List.mem_map.mpr ⟨(d - r.first_shown).toNat, ?_, ?_⟩
      · rw [List.mem_range]
        omega
      · congr 1
        omega
  · intro xs ys
    rw [show xs ++ r :: ys = xs ++ [r] ++ ys by simp,
      create_date_range_data_append, create_date_range_data_append]
    simp [create_date_range_data]

/-- Witness for C4 on a record spanning three days. -/
theorem c4_witness :
    adRecThreeDays.first_shown ≤ adRecThreeDays.last_shown
    ∧ (expandAd adRecThreeDays).length
        = (adRecThreeDays.last_shown - adRecThreeDays.first_shown + 1).toNat :=
  ⟨by decide, (c4_daily_expansion adRecThreeDays (by decide)).1⟩

/-- C10.  An inverted date range expands to no rows, without error, and
removing such a record from the input leaves `create_date_range_data`
unchanged. -/
theorem c10_inverted_range_empty (r : AdRecord) (h : r.last_shown < r.first_shown) :
    expandAd r = []
    ∧ (∀ xs ys : List AdRecord, create_date_range_data (xs ++ r :: ys)
        = create_date_range_data (xs ++ ys)) := by
  have he : expandAd r = [] := by
    rw [expandAd_eq r, show (r.last_shown + 1 - r.first_shown).toNat = 0 by omega]
    rfl
  refine ⟨he, fun xs ys => ?_⟩
  rw [show xs ++ r :: ys = xs ++ [r] ++ ys by simp,
    create_date_range_data_append, create_date_range_data_append,
    create_date_range_data_append]
  simp [create_date_range_data, he]

/-- Witness for C10 on a record whose last-shown day precedes its
first-shown day. -/
theorem c10_witness :
    adRecInverted.last_shown < adRecInverted.first_shown
    ∧ expandAd adRecInverted = [] :=
  ⟨by decide, (c10_inverted_range_empty adRecInverted (by decide)).1⟩


/-! ### C8 and C9: per-record error handling of the loader -/

/-- The loader skips an entry whose `last_shown_date` subscript raises
`KeyError`, after id and first-shown checks pass: the `except (KeyError,
ValueError)` handler turns the raise into a `continue`. -/
theorem processItem_skips_missing_last (item ad_info advertiser_info idv fsv : JVal)
    (d : ℤ)
    (hA : adInfoAdvOf item = .ok (ad_info, advertiser_info))
    (hE : errSkip item = .ok false)
    (hCI : pyContains ad_info kId = .ok true)
    (hCF : pyContains ad_info kFirst = .ok true)
    (hSI : pySubscript ad_info kId = .ok idv)
    (hSF : pySubscript ad_info kFirst = .ok fsv)
    (hPF : parse_date_v fsv = .ok d)
    (hSL : pySubscript ad_info kLast = .error .keyError) :
    processItem item = .ok none := by
  simp [processItem, processItemBody, hA, hE, hCI, hCF, hSI, hSF, hPF, hSL]

/-- C8 (code bug).  An entry with a dict-valued non-ok `error` status is
skipped and the batch continues (first conjunct).  But an entry whose
`error` field is a string — the exact shape `fetch_ad_details` persists for
a failed fetch — makes `item['error']['code']` at line 66 raise a
`TypeError`, which `except (KeyError, ValueError)` does not catch: the
loader aborts instead of skipping, and entries after it are never
processed (second and third conjuncts), contradicting the claim that no
entry carrying an `error` field makes the loader raise. -/
theorem c8_error_entry_crashes_loader :
    recordCount (load_and_process_ad_data [itemDictError, itemGood]) = some 1
    ∧ raisesTypeError (load_and_process_ad_data [itemStrError]) = true
    ∧ raisesTypeError (load_and_process_ad_data [itemStrError, itemGood]) = true :=
  ⟨by decide, by decide, by decide⟩

/-- C9 (code bug).  An entry with an id and a first-shown date but no
`last_shown_date` is dropped — the missing date is never defaulted — and
the rest of the batch is processed (first and second conjuncts).  But the
universal claim fails: such an entry that additionally carries a
string-valued `error` field raises an uncaught `TypeError` at the error
check, aborting the whole batch before the date logic runs (third
conjunct). -/
theorem c9_missing_last_shown_dropped :
    recordCount (load_and_process_ad_data [itemNoLast, itemGood]) = some 1
    ∧ recordCount (load_and_process_ad_data [itemNoLast]) = some 0
    ∧ raisesTypeError (load_and_process_ad_data [itemNoLastStrError, itemGood]) = true :=
  ⟨by decide, by decide, by decide⟩

/-! ### C5: collector deduplication -/

theorem dedupNew_append (xs : List HKey) :
    ∀ (seen ys : List HKey), dedupNew seen (xs ++ ys)
      = dedupNew seen xs ++ dedupNew (seen ++ dedupNew seen xs) ys := by
  induction xs with
  | nil => intro seen ys; simp [dedupNew]
  | cons k ks ih =>
    intro seen ys
    by_cases hk : k ∈ seen
    · simp only [List.cons_append, dedupNew, if_pos hk]
      exact ih seen ys
    · simp only [List.cons_append, dedupNew, if_neg hk, ih]
      simp [List.append_assoc]
      rw [ih (seen ++ [k]) ys]
      congr 2
      simp

theorem dedupNew_nodup (l : List HKey) :
    ∀ seen : List HKey, (dedupNew seen l).Nodup ∧ ∀ k ∈ dedupNew seen l, k ∉ seen := by
  induction l with
  | nil => intro seen; simp [dedupNew]
  | cons k ks ih =>
    intro seen
    by_cases hk : k ∈ seen
    · simpa [dedupNew, hk] using ih seen
    · simp only [dedupNew, if_neg hk]
      obtain ⟨h1, h2⟩ := ih (seen ++ [k])
      refine ⟨List.nodup_cons.mpr ⟨fun hmem => (h2 k hmem) (by simp), h1⟩, ?_⟩
      intro x hx
      rcases List.mem_cons.mp hx with rfl | hx'
      · exact hk
      · intro hxs
        exact (h2 x hx') (by simp [hxs])

/-- One page of the collector loop extends `seen_ids` by the
first-occurrence deduplication of the page's key stream, and keeps
`all_ads` positionally aligned with `seen_ids`. -/
theorem processAds_seen (ads : List JVal) :
    ∀ (st st' : CollectSt), processAds st ads = .ok st' →
      st'.seen_ids = st.seen_ids ++ dedupNew st.seen_ids (pageKeys ads)
      ∧ (st.all_ads.map (fun r => toHKey r.id) = st.seen_ids.map some →
          st'.all_ads.map (fun r => toHKey r.id) = st'.seen_ids.map some) := by
  induction ads with
  | nil =>
    intro st st' h
    simp only [processAds, Except.ok.injEq] at h
    subst h
    simp [pageKeys, dedupNew]
  | cons ad ads ih =>
    intro st st' h
    unfold processAds at h
    cases hA : processAd st ad with
    | error e => simp [hA] at h
    | ok st₁ =>
      simp only [hA] at h
      unfold processAd at hA
      cases hG1 : pyGet ad kAd (.jdict []) with
      | error e => simp [hG1] at hA
      | ok a =>
        simp only [hG1] at hA
        cases hG2 : pyGet a kId .jnull with
        | error e => simp [hG2] at hA
        | ok idv =>
          simp only [hG2] at hA
          by_cases htr : truthy idv = true
          · rw [if_pos htr] at hA
            cases hk : toHKey idv with
            | none => simp [hk] at hA
            | some k =>
              simp only [hk] at hA
              have hkey : adKey ad = some k := by simp [adKey, hG1, hG2, htr, hk]
              by_cases hmem : k ∈ st.seen_ids
              · rw [if_pos hmem] at hA
                simp only [Except.ok.injEq] at hA
                subst hA
                obtain ⟨h1, h2⟩ := ih st st' h
                refine ⟨?_, h2⟩
                rw [h1]
                simp [pageKeys, hkey, dedupNew, hmem]
              · rw [if_neg hmem] at hA
                simp only [Except.ok.injEq] at hA
                subst hA
                obtain ⟨h1, h2⟩ := ih _ st' h
                constructor
                · rw [h1]
                  simp only [pageKeys, List.filterMap_cons, hkey]
                  rw [show dedupNew st.seen_ids (k :: List.filterMap adKey ads)
                      = k :: dedupNew (st.seen_ids ++ [k]) (List.filterMap adKey ads)
                    from by rw [dedupNew, if_neg hmem]]
                  simp [pageKeys, List.append_assoc]
                · intro hinv
                  apply h2
                  simp [hinv, hk]
          · rw [if_neg htr] at hA
            simp only [Except.ok.injEq] at hA
            subst hA
            have hkey : adKey ad = none := by simp [adKey, hG1, hG2, htr]
            obtain ⟨h1, h2⟩ := ih st st' h
            exact ⟨by rw [h1]; simp [pageKeys, hkey], h2⟩

/-- The whole-run analogue of `processAds_seen`. -/
theorem processPages_seen (pages : List (List JVal)) :
    ∀ (st st' : CollectSt), processPages st pages = .ok st' →
      st'.seen_ids = st.seen_ids ++ dedupNew st.seen_ids (runKeys pages)
      ∧ (st.all_ads.map (fun r => toHKey r.id) = st.seen_ids.map some →
          st'.all_ads.map (fun r => toHKey r.id) = st'.seen_ids.map some) := by
  induction pages with
  | nil =>
    intro st st' h
    simp only [processPages, Except.ok.injEq] at h
    subst h
    simp [runKeys, dedupNew]
  | cons p ps ih =>
    intro st st' h
    unfold processPages at h
    cases hP : processAds st p with
    | error e => simp [hP] at h
    | ok st₁ =>
      simp only [hP] at h
      obtain ⟨h1, h2⟩ := processAds_seen p st st₁ hP
      obtain ⟨h3, h4⟩ := ih st₁ st' h
      refine ⟨?_, fun hinv => h4 (h2 hinv)⟩
      rw [h3, h1, runKeys, dedupNew_append]
      simp [List.append_assoc]

/-- C5.  Collector deduplication: for every sequence of page responses of
one collection run that the collector processes to completion, the final
`seen_ids` is exactly the first-occurrence deduplication of the run's
identifier stream (so each identifier is kept at the position of its first
discovery and dropped on every later occurrence, also across overlapping
chunks); the exported `all_ads` list is positionally aligned with
`seen_ids`; and the exported identifiers contain no duplicate. -/
theorem c5_collector_dedup (pages : List (List JVal)) (st' : CollectSt)
    (h : processPages { all_ads := [], seen_ids := [] } pages = .ok st') :
    st'.seen_ids = dedupNew [] (runKeys pages)
    ∧ st'.all_ads.map (fun r => toHKey r.id) = st'.seen_ids.map some
    ∧ st'.seen_ids.Nodup
    ∧ (st'.all_ads.map (fun r => r.id)).Nodup := by
  obtain ⟨h1, h2⟩ := processPages_seen pages { all_ads := [], seen_ids := [] } st' h
  simp only [List.nil_append] at h1
  have hinv := h2 (by simp)
  have hnodup : st'.seen_ids.Nodup := by
    rw [h1]
    exact (dedupNew_nodup (runKeys pages) []).1
  refine ⟨h1, hinv, hnodup, ?_⟩
  have hmm : (st'.all_ads.map (fun r => r.id)).map toHKey = st'.seen_ids.map some := by
    rw [List.map_map]
    exact hinv
  have hmap : ((st'.all_ads.map (fun r => r.id)).map toHKey).Nodup := by
    rw [hmm]
    exact hnodup.map (Option.some_injective _)
  exact hmap.of_map

/-- Witness for C5: two overlapping pages both returning identifier `X`
yield `X` exactly once, at its first position. -/
theorem c5_witness :
    processPages { all_ads := [], seen_ids := [] } pagesXY = .ok stAfterXY
    ∧ stAfterXY.seen_ids = dedupNew [] (runKeys pagesXY)
    ∧ (stAfterXY.all_ads.map (fun r => r.id)).Nodup :=
  ⟨rfl, (c5_collector_dedup pagesXY stAfterXY rfl).1,
    (c5_collector_dedup pagesXY stAfterXY rfl).2.2.2⟩

/-! ### C6: the 429 retry and the page budget -/

/-- A run of `k` consecutive 429 responses issues `k` requests at the same
unchanged offset, consuming `k` units of page budget, provided the budget
allows all of them. -/
theorem chunkLoop_replicate_r429 (k : ℕ) :
    ∀ (rest : List Resp) (st : CollectSt) (off pc : ℕ),
      st.all_ads.length < MAX_TOTAL_ADS → pc + k ≤ MAX_PAGES →
      chunkLoop (List.replicate k .r429 ++ rest) st off pc true
        = (chunkLoop rest st off (pc + k) true).map
            (fun p => (List.replicate k off ++ p.1, p.2)) := by
  induction k with
  | zero =>
    intro rest st off pc hlen hk
    simp only [List.replicate, List.nil_append, Nat.add_zero]
    cases chunkLoop rest st off pc true with
    | error e => rfl
    | ok p => simp [Except.map]
  | succ n ih =>
    intro rest st off pc hlen hk
    have hpc : pc < MAX_PAGES := by omega
    rw [List.replicate_succ, List.cons_append]
    rw [show chunkLoop (.r429 :: (List.replicate n .r429 ++ rest)) st off pc true
        = match chunkLoop (List.replicate n .r429 ++ rest) st off (pc + 1) true with
          | .error e => .error e
          | .ok (t, res) => .ok (off :: t, res)
      from by rw [chunkLoop, if_pos ⟨rfl, hpc, hlen⟩]]
    rw [ih rest st off (pc + 1) hlen (by omega)]
    rw [show pc + 1 + n = pc + (n + 1) from by omega]
    cases chunkLoop rest st off (pc + (n + 1)) true with
    | error e => rfl
    | ok p => simp [Except.map, List.replicate_succ]

theorem replicate_append_cons {α : Type} (k : ℕ) (a : α) (t : List α) :
    List.replicate k a ++ a :: t = a :: (List.replicate k a ++ t) := by
  induction k with
  | zero => rfl
  | succ n ih => simp [List.replicate_succ, ih]

/-- C6 amended: on a 429 the collector retries the same offset after the
fixed delay, but each retry consumes one unit of the chunk's page budget
(`page_count` is incremented before the request), so the retry is bounded:
if `k` consecutive 429 responses still fit the remaining budget
(`pc + k < MAX_PAGES`), all `k` retries and the following successful
request are issued at the same offset and collection proceeds with that
page once the signal clears; `k` at or beyond the remaining budget ends
the chunk instead (see the counterexample). -/
theorem c6_retry_within_budget (k : ℕ) (ads : List JVal) (noff : Option ℕ)
    (hm : Bool) (rest : List Resp) (st : CollectSt) (off pc : ℕ)
    (hlen : st.all_ads.length < MAX_TOTAL_ADS) (hk : pc + k < MAX_PAGES) :
    chunkLoop (List.replicate k .r429 ++ .page ads noff hm :: rest) st off pc true
      = match processAds st ads with
        | .error e => .error e
        | .ok st' =>
          (chunkLoop rest st' (noff.getD (off + MAX_ADS_PER_REQUEST))
              (pc + k + 1) hm).map
            (fun p => (List.replicate (k + 1) off ++ p.1, p.2)) := by
  rw [chunkLoop_replicate_r429 k (.page ads noff hm :: rest) st off pc hlen (by omega)]
  rw [show chunkLoop (.page ads noff hm :: rest) st off (pc + k) true
      = match processAds st ads with
        | .error e => .error e
        | .ok st' =>
          match chunkLoop rest st' (noff.getD (off + MAX_ADS_PER_REQUEST))
              (pc + k + 1) hm with
          | .error e => .error e
          | .ok (t, res) => .ok (off :: t, res)
    from by rw [chunkLoop, if_pos ⟨rfl, hk, hlen⟩]]
  cases processAds st ads with
  | error e => rfl
  | ok st' =>
    dsimp only
    cases chunkLoop rest st' (noff.getD (off + MAX_ADS_PER_REQUEST)) (pc + k + 1) hm with
    | error e => rfl
    | ok p =>
      simp [Except.map, List.replicate_succ, replicate_append_cons]

/-- C6 counterexample: after `MAX_PAGES` consecutive 429 responses the
chunk's page budget is exhausted, so the collector does NOT issue another
request for the same offset: the scripted successful page that follows is
never requested, and the run ends with nothing collected — refuting the
claim that the retry survives any finite number of consecutive 429s. -/
theorem c6_counterexample :
    chunkLoop (List.replicate MAX_PAGES .r429 ++ [.page [adX] none false])
        { all_ads := [], seen_ids := [] } 0 0 true
      = .ok (List.replicate MAX_PAGES 0, { all_ads := [], seen_ids := [] }) := by
  rw [chunkLoop_replicate_r429 MAX_PAGES [.page [adX] none false]
    { all_ads := [], seen_ids := [] } 0 0 (by decide) (by omega)]
  rw [show chunkLoop [.page [adX] none false] { all_ads := [], seen_ids := [] }
      0 (0 + MAX_PAGES) true = .ok ([], { all_ads := [], seen_ids := [] })
    from by rw [chunkLoop, if_neg (by simp [MAX_PAGES])]]
  simp [Except.map]

/-- Witness for C6 (amended): two 429 responses, then a page containing
`adX`: three requests at offset 0, and the ad is collected. -/
theorem c6_witness :
    chunkLoop (List.replicate 2 .r429 ++ [.page [adX] none false])
        { all_ads := [], seen_ids := [] } 0 0 true
      = .ok ([0, 0, 0], stAfterX) := by
  rw [c6_retry_within_budget 2 [adX] none false [] { all_ads := [], seen_ids := [] }
    0 0 (by decide) (by decide)]
  rfl

/-! ### C1: date-chunk coverage of the lookback window -/

/-- Every day strictly before the window end is inside some chunk's date
filter, given enough fuel and a positive increment. -/
theorem chunkGo_covers_mid (inc : ℕ) (hinc : 1 ≤ inc) :
    ∀ (fuel : ℕ) (cur maxD d : ℤ), (maxD - cur).toNat ≤ fuel →
      cur ≤ d → d < maxD → coveredBy (chunkGo inc fuel cur maxD) d := by
  intro fuel
  induction fuel with
  | zero =>
    intro cur maxD d hf h1 h2
    exfalso
    omega
  | succ n ih =>
    intro cur maxD d hf h1 h2
    have hcm : cur < maxD := by omega
    simp only [chunkGo, if_pos hcm]
    by_cases hd : d ≤ cur + inc - 1
    · refine ⟨(cur, min (cur + (inc : ℤ) - 1) maxD), by simp, h1, ?_⟩
      simp only [le_min_iff]
      omega
    · have hcast : (1 : ℤ) ≤ (inc : ℤ) := by exact_mod_cast hinc
      have h5 : (maxD - (cur + (inc : ℤ))).toNat ≤ n := by omega
      have h6 : cur + (inc : ℤ) ≤ d := by omega
      obtain ⟨c, hcmem, hcc⟩ := ih (cur + (inc : ℤ)) maxD d h5 h6 h2
      exact ⟨c, List.mem_cons_of_mem _ hcmem, hcc⟩

/-- The window end itself is covered exactly when the increment does not
divide the window length: positive case. -/
theorem chunkGo_covers_end (inc : ℕ) (hinc : 1 ≤ inc) :
    ∀ (fuel : ℕ) (cur maxD : ℤ), (maxD - cur).toNat ≤ fuel → cur < maxD →
      ¬ ((inc : ℤ) ∣ (maxD - cur)) → coveredBy (chunkGo inc fuel cur maxD) maxD := by
  intro fuel
  induction fuel with
  | zero =>
    intro cur maxD hf hcm hdvd
    exfalso
    omega
  | succ n ih =>
    intro cur maxD hf hcm hdvd
    simp only [chunkGo, if_pos hcm]
    by_cases hd : maxD ≤ cur + inc - 1
    · refine ⟨(cur, min (cur + (inc : ℤ) - 1) maxD), by simp, le_of_lt hcm, ?_⟩
      simp only [le_min_iff]
      omega
    · have hlt : cur + inc < maxD ∨ cur + inc = maxD := by omega
      rcases hlt with hlt | heq
      · have hdvd' : ¬ ((inc : ℤ) ∣ (maxD - (cur + inc))) := by
          intro hdv
          apply hdvd
          have : maxD - cur = (maxD - (cur + inc)) + inc := by ring
          rw [this]
          exact dvd_add hdv (dvd_refl _)
        have hcast : (1 : ℤ) ≤ (inc : ℤ) := by exact_mod_cast hinc
        obtain ⟨c, hcmem, hcc⟩ := ih (cur + inc) maxD (by omega) hlt hdvd'
        exact ⟨c, List.mem_cons_of_mem _ hcmem, hcc⟩
      · exfalso
        apply hdvd
        rw [show maxD - cur = (inc : ℤ) from by omega]

/-- The window end itself is covered exactly when the increment does not
divide the window length: negative case.  When it divides, no chunk of the
traversal reaches the final day, for any fuel. -/
theorem chunkGo_end_uncovered (inc : ℕ) :
    ∀ (fuel : ℕ) (cur maxD : ℤ), (inc : ℤ) ∣ (maxD - cur) →
      ¬ coveredBy (chunkGo inc fuel cur maxD) maxD := by
  intro fuel
  induction fuel with
  | zero =>
    intro cur maxD hdvd
    rintro ⟨c, hc, -⟩
    simp [chunkGo] at hc
  | succ n ih =>
    intro cur maxD hdvd
    by_cases hcm : cur < maxD
    · simp only [chunkGo, if_pos hcm]
      rintro ⟨c, hc, h1, h2⟩
      rcases List.mem_cons.mp hc with rfl | hc'
      · have hle : (inc : ℤ) ≤ maxD - cur := Int.le_of_dvd (by omega) hdvd
        simp only [le_min_iff] at h2
        omega
      · have hdvd' : (inc : ℤ) ∣ (maxD - (cur + inc)) := by
          have : maxD - (cur + inc) = (maxD - cur) - inc := by ring
          rw [this]
          exact dvd_sub hdvd (dvd_refl _)
        exact ih (cur + inc) maxD hdvd' ⟨c, hc', h1, h2⟩
    · simp only [chunkGo, if_neg hcm]
      rintro ⟨c, hc, -⟩
      simp at hc

/-- C1 counterexample: with window start 0 and window end (yesterday) 30 —
a 30-day lookback, as produced for instance by a one-month lookback ending
May 1 — and the source's chunk size 10, the final day 30 belongs to the
window but to no chunk's date filter: the chunks are
`[0,9], [10,19], [20,29]`.  This refutes the claim for every value of the
lookback duration and chunk size. -/
theorem c1_counterexample :
    (0 : ℤ) ≤ 30 ∧ (30 : ℤ) ≤ 30
    ∧ chunkList DATE_INCREMENT_DAYS 0 30 = [(0, 9), (10, 19), (20, 29)]
    ∧ ¬ coveredBy (chunkList DATE_INCREMENT_DAYS 0 30) 30 := by decide

/-- C1 amended: for a positive chunk size, every day of the lookback
window except possibly the final day `e` (yesterday) lies inside some
chunk's date filter; the final day is covered precisely when the chunk
size does not divide the window length `e - s`.  When it divides, the
final day is omitted from every chunk. -/
theorem c1_chunk_coverage (inc : ℕ) (hinc : 1 ≤ inc) (s e d : ℤ) :
    (s ≤ d → d < e → coveredBy (chunkList inc s e) d)
    ∧ (s < e → ¬ ((inc : ℤ) ∣ (e - s)) → coveredBy (chunkList inc s e) e)
    ∧ ((inc : ℤ) ∣ (e - s) → ¬ coveredBy (chunkList inc s e) e) :=
  ⟨fun h1 h2 => chunkGo_covers_mid inc hinc (e - s).toNat s e d le_rfl h1 h2,
   fun h1 h2 => chunkGo_covers_end inc hinc (e - s).toNat s e le_rfl h1 h2,
   fun h => chunkGo_end_uncovered inc (e - s).toNat s e h⟩

/-- Witness for C1 (amended): a 35-day window with chunk size 10 covers the
interior day 34 and the final day 35 (10 does not divide 35). -/
theorem c1_witness :
    coveredBy (chunkList DATE_INCREMENT_DAYS 0 35) 34
    ∧ coveredBy (chunkList DATE_INCREMENT_DAYS 0 35) 35 :=
  ⟨(c1_chunk_coverage DATE_INCREMENT_DAYS (by decide) 0 35 34).1 (by decide) (by decide),
   (c1_chunk_coverage DATE_INCREMENT_DAYS (by decide) 0 35 35).2.1 (by decide) (by decide)⟩
